import Mathlib

/-!
Verification of the resumable keyed-collection engine of the
dfw_demographic_evolution repository.

The definitions below are a shallow embedding of the two collector variants
the specification covers:

* `collect_data.py` — class `CountyBasedDataCollector`: the retrying fetch
  `get_demographic_data` and the resumable run loop `collect_data_for_places`.
* `incremental_collector.py` — class `IncrementalDataCollector`: the
  single-shot fetch and the per-city incremental save loop
  `collect_data_incrementally`.

HTTP traffic is modelled by a response oracle passed in as a function;
file I/O is modelled by an explicit store (a list of records) threaded
through the run, together with a trace of every store content written.
Floating-point geography (haversine distance, rounding) is out of scope of
every claim and is supplied as an opaque rational-valued parameter of the
configuration.
-/

set_option maxHeartbeats 1600000

namespace DfwCollect

/-! ## Fetch level: `CountyBasedDataCollector.get_demographic_data` -/

/-- The Census API sentinel string meaning data suppressed or unavailable,
written as the literal string of minus 666666666 in `collect_data.py`. -/
def sentinelStr : String := "-666666666"

/-- The integer value the sentinel string denotes. -/
def sentinelInt : Int := -666666666

/-- Cell normalization from `get_demographic_data` (collect_data.py,
lines 324–339): keep the parsed integer when the cell is non-empty and is
not the sentinel, otherwise substitute 0.  A missing cell is modelled as
the empty string.  A non-numeric, non-empty, non-sentinel cell is modelled
as 0 here; in the source such a cell would raise inside the try block and
be retried, a case no claim depends on. -/
def normValue (s : String) : Int :=
  if s ≠ "" ∧ s ≠ sentinelStr then (s.toInt?).getD 0 else 0

/-- The record `get_demographic_data` builds from one successful response
row (collect_data.py, lines 322–342).  Field names follow the source keys.
Indices into the row follow the source exactly: positions 1–10, then 12–16
(position 11, total ancestry, is requested but unused), and `vietnamese`
is hard-coded to 0. -/
structure DemographicData where
  name : String
  total_population : Int
  white_alone : Int
  black_alone : Int
  asian_alone : Int
  two_or_more_races : Int
  hispanic_latino : Int
  german : Int
  irish : Int
  english : Int
  mexican : Int
  indian : Int
  chinese : Int
  vietnamese : Int
  french : Int
  italian : Int
  korean : Int
  place_fips : String
  year : Nat
  deriving Repr, DecidableEq

/-- Build the result dictionary from the first data row, storing the
original (unpadded) `place_fips` of the caller, per the source comment
"Store original FIPS for consistency". -/
def mkResult (row : List String) (place_fips : String) (year : Nat) : DemographicData :=
  { name := row.getD 0 ""
    total_population := normValue (row.getD 1 "")
    white_alone := normValue (row.getD 2 "")
    black_alone := normValue (row.getD 3 "")
    asian_alone := normValue (row.getD 4 "")
    two_or_more_races := normValue (row.getD 5 "")
    hispanic_latino := normValue (row.getD 6 "")
    german := normValue (row.getD 7 "")
    irish := normValue (row.getD 8 "")
    english := normValue (row.getD 9 "")
    mexican := normValue (row.getD 10 "")
    indian := normValue (row.getD 12 "")
    chinese := normValue (row.getD 13 "")
    vietnamese := 0
    french := normValue (row.getD 14 "")
    italian := normValue (row.getD 15 "")
    korean := normValue (row.getD 16 "")
    place_fips := place_fips
    year := year }

/-- Python `str.zfill` restricted to the digit strings it is applied to in
the source: left-pad with the character 0 up to the given width. -/
def zfill (width : Nat) (s : String) : String :=
  if s.length < width then String.mk (List.replicate (width - s.length) '0') ++ s else s

def baseUrl : String := "https://api.census.gov/data"

/-- The request `get_demographic_data` sends, built once before the retry
loop (collect_data.py, lines 277–305).  The place selector uses the FIPS
code zero-padded to 5 digits; the record later stores the unpadded one. -/
structure ApiRequest where
  url : String
  forParam : String
  inParam : String
  deriving Repr, DecidableEq

def requestOf (place_fips : String) (year : Nat) : ApiRequest :=
  { url := baseUrl ++ "/" ++ toString year ++ "/acs/acs5"
    forParam := "place:" ++ zfill 5 place_fips
    inParam := "state:48" }

/-- One attempt of the provider, as classified by the source retry loop:
HTTP 200 with a data row, HTTP 200 whose JSON has no row beyond the
header, HTTP 204 (explicit no-data), any other status code, a timeout
exception, or any other exception. -/
inductive ApiResponse where
  | ok (row : List String)
  | okEmpty
  | noData
  | apiError
  | timeout
  | exn
  deriving Repr, DecidableEq

/-- A response the source retries with exponential backoff: non-200/204
status, timeout, or any other exception (three textually identical
handlers in collect_data.py, lines 349–372). -/
def isTransient (r : ApiResponse) : Prop :=
  r = ApiResponse.apiError ∨ r = ApiResponse.timeout ∨ r = ApiResponse.exn

instance (r : ApiResponse) : Decidable (isTransient r) := by
  unfold isTransient; infer_instance

/-- Observable outcome of the retry loop: the parsed record if any, the
backoff sleeps performed (in order), and the number of requests issued. -/
structure FetchLoopOut where
  result : Option DemographicData
  waits : List Nat
  attemptsUsed : Nat
  deriving Repr, DecidableEq

/-- The retry loop of `get_demographic_data` (collect_data.py, lines
311–374).  The loop variable `attempt` runs from 0 to maxRetries - 1; the
recursion is on the number of remaining iterations, so the current
attempt index is maxRetries minus the remaining count.  An HTTP 200
response without a data row falls out of the conditional and continues
the loop without sleeping; HTTP 204 returns None immediately; the three
transient cases sleep 2 ^ attempt and continue unless this was the final
attempt. -/
def fetchLoop (resps : Nat → ApiResponse) (place_fips : String) (year : Nat)
    (maxRetries : Nat) : Nat → FetchLoopOut
  | 0 => ⟨none, [], 0⟩
  | n + 1 =>
    match resps (maxRetries - (n + 1)) with
    | .ok row => ⟨some (mkResult row place_fips year), [], 1⟩
    | .okEmpty =>
      let rest := fetchLoop resps place_fips year maxRetries n
      ⟨rest.result, rest.waits, rest.attemptsUsed + 1⟩
    | .noData => ⟨none, [], 1⟩
    | .apiError =>
      if n = 0 then ⟨none, [], 1⟩
      else
        let rest := fetchLoop resps place_fips year maxRetries n
        ⟨rest.result, 2 ^ (maxRetries - (n + 1)) :: rest.waits, rest.attemptsUsed + 1⟩
    | .timeout =>
      if n = 0 then ⟨none, [], 1⟩
      else
        let rest := fetchLoop resps place_fips year maxRetries n
        ⟨rest.result, 2 ^ (maxRetries - (n + 1)) :: rest.waits, rest.attemptsUsed + 1⟩
    | .exn =>
      if n = 0 then ⟨none, [], 1⟩
      else
        let rest := fetchLoop resps place_fips year maxRetries n
        ⟨rest.result, 2 ^ (maxRetries - (n + 1)) :: rest.waits, rest.attemptsUsed + 1⟩

/-- Full observable behaviour of `get_demographic_data`: the request it
builds (identical for every attempt, since the parameters are computed
before the loop) and the outcome of the retry loop.  The default bound of
3 attempts matches the `max_retries` default parameter. -/
structure FetchOutcome where
  request : ApiRequest
  result : Option DemographicData
  waits : List Nat
  attemptsUsed : Nat
  deriving Repr, DecidableEq

def getDemographicData (resps : Nat → ApiResponse) (place_fips : String) (year : Nat)
    (maxRetries : Nat := 3) : FetchOutcome :=
  let out := fetchLoop resps place_fips year maxRetries maxRetries
  ⟨requestOf place_fips year, out.result, out.waits, out.attemptsUsed⟩

/-- Any record produced by the retry loop carries the place and year of
the request. -/
theorem fetchLoop_result_key (resps : Nat → ApiResponse) (f : String) (y : Nat)
    (mr : Nat) : ∀ n d, (fetchLoop resps f y mr n).result = some d →
    d.place_fips = f ∧ d.year = y := by
  intro n
  induction n with
  | zero => intro d h; simp [fetchLoop] at h
  | succ n ih =>
    intro d h
    simp only [fetchLoop] at h
    cases hr : resps (mr - (n + 1)) <;> simp [hr] at h
    · exact ⟨by rw [← h]; simp [mkResult], by rw [← h]; simp [mkResult]⟩
    · exact ih d h
    · by_cases hn : n = 0 <;> simp [hn] at h
      exact ih d h
    · by_cases hn : n = 0 <;> simp [hn] at h
      exact ih d h
    · by_cases hn : n = 0 <;> simp [hn] at h
      exact ih d h

theorem getDemographicData_result_key (resps : Nat → ApiResponse) (f : String) (y : Nat)
    (mr : Nat) (d : DemographicData)
    (h : (getDemographicData resps f y mr).result = some d) :
    d.place_fips = f ∧ d.year = y :=
  fetchLoop_result_key resps f y mr mr d h

/-! ## Run level: `CountyBasedDataCollector.collect_data_for_places` -/

/-- One entry of the places list built by `get_all_places_in_counties`:
display name, place FIPS code (kept in the caller representation), and the
list of counties the place belongs to. -/
structure Place where
  name : String
  place_fips : String
  counties : List String
  deriving Repr, DecidableEq

/-- Coordinate data from the `texas_place_coordinates.csv` lookup. -/
structure CoordData where
  latitude : ℚ
  longitude : ℚ
  coordinates : String
  deriving Repr, DecidableEq

/-- Collector configuration: the county FIPS dictionary, the coordinates
lookup keyed by the integer value of the place FIPS, and the rounded
haversine distance from Dallas.  The distance is a floating-point
computation in the source (math.sin and friends); it is opaque to every
claim, so it enters the model as a parameter. -/
structure Config where
  countyFips : String → String
  coordinatesLookup : Nat → Option CoordData
  distRounded : ℚ × ℚ → ℚ

/-- Python `int(...)` on the digit strings used as place FIPS codes. -/
def pfInt (s : String) : Nat := (s.toNat?).getD 0

/-- The Dallas reference coordinates from the source. -/
def dallasCoords : ℚ × ℚ := (32.7767, -96.7970)

/-- The coordinates string stored when the lookup misses: the Python
f-string rendering of the Dallas coordinate tuple. -/
def dallasCoordsStr : String := "(32.7767, -96.797)"

/-- One row of the output CSV: the fetched demographic data plus the
place metadata added in `collect_data_for_places` (lines 429–453). -/
structure Record where
  data : DemographicData
  city : String
  county : String
  county_fips : String
  all_counties : String
  latitude : ℚ
  longitude : ℚ
  coordinates : String
  distance_from_dallas : ℚ
  deriving Repr, DecidableEq

/-- The metadata decoration applied to a freshly fetched record
(collect_data.py, lines 429–453): city name, primary county (first of the
list), county FIPS, joined county list, then coordinates and rounded
distance from the lookup, defaulting to the Dallas coordinates with
distance 0.0 when the lookup misses. -/
def decorate (cfg : Config) (place : Place) (d : DemographicData) : Record :=
  let primary_county := place.counties.getD 0 ""
  match cfg.coordinatesLookup (pfInt place.place_fips) with
  | some cd =>
    { data := d
      city := place.name
      county := primary_county
      county_fips := cfg.countyFips primary_county
      all_counties := String.intercalate ", " place.counties
      latitude := cd.latitude
      longitude := cd.longitude
      coordinates := cd.coordinates
      distance_from_dallas := cfg.distRounded (cd.latitude, cd.longitude) }
  | none =>
    { data := d
      city := place.name
      county := primary_county
      county_fips := cfg.countyFips primary_county
      all_counties := String.intercalate ", " place.counties
      latitude := dallasCoords.1
      longitude := dallasCoords.2
      coordinates := dallasCoordsStr
      distance_from_dallas := 0 }

/-- The resume key of the engine: the Python f-string joining the place
FIPS representation and the year with an underscore (lines 391 and 419). -/
def resumeKey (place_fips : String) (year : Nat) : String :=
  place_fips ++ "_" ++ toString year

/-- The key under which a stored record is registered at startup
(line 391): built from the fields the record itself carries. -/
def recKey (r : Record) : String := resumeKey r.data.place_fips r.data.year

/-- Mutable state of the collection loop: the accumulated record list,
the existing-keys set (modelled as the list of keys in insertion order;
only membership is ever queried), the completed counter, and the
observable traces: failures, fetch requests issued, skipped items, and
every store content written by `to_csv`. -/
structure LoopState where
  all_data : List Record
  existing_keys : List String
  completed : Nat
  failed : List (String × Nat)
  fetched : List (String × Nat)
  skipped : List (String × Nat)
  writes : List (List Record)
  deriving Repr, DecidableEq

/-- The per-response oracle of a whole run: for each place FIPS, year and
attempt index, the provider answer. -/
abbrev RunOracle := String → Nat → Nat → ApiResponse

/-- The body of the inner loop of `collect_data_for_places` (lines
418–467) for one (place, year) work item: skip when the key is already
known, otherwise call `get_demographic_data`; on success decorate the
record, append it, register the key, bump the counter and rewrite the
whole store; on failure append to the failure list. -/
def collectStep (cfg : Config) (R : RunOracle) (place : Place) (year : Nat)
    (s : LoopState) : LoopState :=
  let k := resumeKey place.place_fips year
  if k ∈ s.existing_keys then
    { s with skipped := s.skipped ++ [(place.place_fips, year)] }
  else
    let outcome := getDemographicData (R place.place_fips year) place.place_fips year 3
    let s1 := { s with fetched := s.fetched ++ [(place.place_fips, year)] }
    match outcome.result with
    | some d =>
      let r := decorate cfg place d
      let allNow := s1.all_data ++ [r]
      { s1 with
        all_data := allNow
        existing_keys := s1.existing_keys ++ [k]
        completed := s1.completed + 1
        writes := s1.writes ++ [allNow] }
    | none =>
      { s1 with failed := s1.failed ++ [(place.name, year)] }

/-- Result of one call of `collect_data_for_places`. -/
structure RunResult where
  finalData : List Record
  writes : List (List Record)
  fetched : List (String × Nat)
  failed : List (String × Nat)
  skipped : List (String × Nat)
  completed : Nat
  deriving Repr, DecidableEq

/-- `collect_data_for_places` (collect_data.py, lines 376–494): load the
existing store (empty list when the file is absent), build the
existing-keys set from it, then run the nested place-major, year-minor
loop. -/
def runCollect (cfg : Config) (R : RunOracle) (places : List Place)
    (years : List Nat) (store0 : List Record) : RunResult :=
  let init : LoopState :=
    { all_data := store0
      existing_keys := store0.map recKey
      completed := store0.length
      failed := []
      fetched := []
      skipped := []
      writes := [] }
  let fin := places.foldl
    (fun s place => years.foldl (fun s y => collectStep cfg R place y s) s) init
  { finalData := fin.all_data
    writes := fin.writes
    fetched := fin.fetched
    failed := fin.failed
    skipped := fin.skipped
    completed := fin.completed }

/-- The completeness ratio printed at the end of the run (line 485):
length of the accumulated data over the number of place-year
combinations. -/
def completenessOf (cfg : Config) (R : RunOracle) (places : List Place)
    (years : List Nat) (store0 : List Record) : ℚ :=
  ((runCollect cfg R places years store0).finalData.length : ℚ) /
    ((places.length * years.length : Nat) : ℚ)

/-! ## Closed forms for the run loop -/

/-- The work-set in iteration order: place-major, year-minor. -/
def workItems : List Place → List Nat → List (Place × Nat)
  | [], _ => []
  | p :: ps, years => years.map (fun y => (p, y)) ++ workItems ps years

/-- The resume key of a work item. -/
def itemKey (it : Place × Nat) : String := resumeKey it.1.place_fips it.2

/-- The key list of the full work-set. -/
def workKeys (places : List Place) (years : List Nat) : List String :=
  (workItems places years).map itemKey

/-- The fetch the run loop performs for one work item. -/
def fetchItem (R : RunOracle) (it : Place × Nat) : FetchOutcome :=
  getDemographicData (R it.1.place_fips it.2) it.1.place_fips it.2 3

/-- The new records a run appends, in order: one decorated record per work
item whose key is not among the startup keys and whose fetch succeeds. -/
def newRecsFor (cfg : Config) (R : RunOracle) (K0 : List String) :
    List (Place × Nat) → List Record
  | [] => []
  | it :: ws =>
    if itemKey it ∈ K0 then newRecsFor cfg R K0 ws
    else
      match (fetchItem R it).result with
      | some d => decorate cfg it.1 d :: newRecsFor cfg R K0 ws
      | none => newRecsFor cfg R K0 ws

/-- The fetch requests a run issues, in order. -/
def fetchesFor (K0 : List String) : List (Place × Nat) → List (String × Nat)
  | [] => []
  | it :: ws =>
    if itemKey it ∈ K0 then fetchesFor K0 ws
    else (it.1.place_fips, it.2) :: fetchesFor K0 ws

/-- The work items a run skips, in order. -/
def skipsFor (K0 : List String) : List (Place × Nat) → List (String × Nat)
  | [] => []
  | it :: ws =>
    if itemKey it ∈ K0 then (it.1.place_fips, it.2) :: skipsFor K0 ws
    else skipsFor K0 ws

/-- The failure list a run accumulates, in order: place name and year of
every non-skipped item whose fetch returns None. -/
def failsFor (R : RunOracle) (K0 : List String) : List (Place × Nat) → List (String × Nat)
  | [] => []
  | it :: ws =>
    if itemKey it ∈ K0 then failsFor R K0 ws
    else
      match (fetchItem R it).result with
      | some _ => failsFor R K0 ws
      | none => (it.1.name, it.2) :: failsFor R K0 ws

/-- The successive store contents written by the run: one full rewrite per
appended record. -/
def storeWrites (store0 : List Record) : List Record → List (List Record)
  | [] => []
  | r :: rs => (store0 ++ [r]) :: storeWrites (store0 ++ [r]) rs

/-- The loop state after processing a list of work items, in closed form. -/
def stateAfter (cfg : Config) (R : RunOracle) (store0 : List Record)
    (done : List (Place × Nat)) : LoopState :=
  { all_data := store0 ++ newRecsFor cfg R (store0.map recKey) done
    existing_keys :=
      store0.map recKey ++ (newRecsFor cfg R (store0.map recKey) done).map recKey
    completed := store0.length + (newRecsFor cfg R (store0.map recKey) done).length
    failed := failsFor R (store0.map recKey) done
    fetched := fetchesFor (store0.map recKey) done
    skipped := skipsFor (store0.map recKey) done
    writes := storeWrites store0 (newRecsFor cfg R (store0.map recKey) done) }

theorem decorate_data (cfg : Config) (p : Place) (d : DemographicData) :
    (decorate cfg p d).data = d := by
  cases h : cfg.coordinatesLookup (pfInt p.place_fips) <;> simp [decorate, h]

theorem recKey_decorate (cfg : Config) (R : RunOracle) (it : Place × Nat)
    (d : DemographicData) (h : (fetchItem R it).result = some d) :
    recKey (decorate cfg it.1 d) = itemKey it := by
  obtain ⟨h1, h2⟩ := getDemographicData_result_key (R it.1.place_fips it.2)
    it.1.place_fips it.2 3 d h
  simp [recKey, decorate_data, itemKey, h1, h2]

theorem newRecsFor_append (cfg : Config) (R : RunOracle) (K0 : List String)
    (l1 l2 : List (Place × Nat)) :
    newRecsFor cfg R K0 (l1 ++ l2) =
      newRecsFor cfg R K0 l1 ++ newRecsFor cfg R K0 l2 := by
  induction l1 with
  | nil => rfl
  | cons it ws ih =>
    by_cases h : itemKey it ∈ K0
    · simp [newRecsFor, h, ih]
    · cases hr : (fetchItem R it).result <;> simp [newRecsFor, h, hr, ih]

theorem fetchesFor_append (K0 : List String) (l1 l2 : List (Place × Nat)) :
    fetchesFor K0 (l1 ++ l2) = fetchesFor K0 l1 ++ fetchesFor K0 l2 := by
  induction l1 with
  | nil => rfl
  | cons it ws ih =>
    by_cases h : itemKey it ∈ K0 <;> simp [fetchesFor, h, ih]

theorem skipsFor_append (K0 : List String) (l1 l2 : List (Place × Nat)) :
    skipsFor K0 (l1 ++ l2) = skipsFor K0 l1 ++ skipsFor K0 l2 := by
  induction l1 with
  | nil => rfl
  | cons it ws ih =>
    by_cases h : itemKey it ∈ K0 <;> simp [skipsFor, h, ih]

theorem failsFor_append (R : RunOracle) (K0 : List String)
    (l1 l2 : List (Place × Nat)) :
    failsFor R K0 (l1 ++ l2) = failsFor R K0 l1 ++ failsFor R K0 l2 := by
  induction l1 with
  | nil => rfl
  | cons it ws ih =>
    by_cases h : itemKey it ∈ K0
    · simp [failsFor, h, ih]
    · cases hr : (fetchItem R it).result <;> simp [failsFor, h, hr, ih]

theorem storeWrites_snoc (r : Record) : ∀ (store0 rs : List Record),
    storeWrites store0 (rs ++ [r]) =
      storeWrites store0 rs ++ [store0 ++ rs ++ [r]] := by
  intro store0 rs
  induction rs generalizing store0 with
  | nil => simp [storeWrites]
  | cons x xs ih =>
    show storeWrites store0 (x :: (xs ++ [r])) = _
    rw [storeWrites, ih (store0 ++ [x]), storeWrites]
    simp

/-- Every key of a record appended by the run is the key of the work item
it came from. -/
theorem newRecsFor_keys_subset (cfg : Config) (R : RunOracle) (K0 : List String) :
    ∀ (ws : List (Place × Nat)) (k : String),
    k ∈ (newRecsFor cfg R K0 ws).map recKey → k ∈ ws.map itemKey := by
  intro ws
  induction ws with
  | nil => intro k h; simp [newRecsFor] at h
  | cons it rest ih =>
    intro k h
    by_cases hm : itemKey it ∈ K0
    · simp only [newRecsFor, if_pos hm] at h
      exact List.mem_cons_of_mem _ (ih k h)
    · simp only [newRecsFor, if_neg hm] at h
      cases hr : (fetchItem R it).result with
      | none => rw [hr] at h; exact List.mem_cons_of_mem _ (ih k h)
      | some d =>
        rw [hr] at h
        simp only [List.map_cons, List.mem_cons] at h
        rcases h with h | h
        · rw [recKey_decorate cfg R it d hr] at h
          simp [h]
        · exact List.mem_cons_of_mem _ (ih k h)

/-- Processing one more work item whose key differs from every key already
processed transforms the closed-form state accordingly. -/
theorem stateAfter_step (cfg : Config) (R : RunOracle) (store0 : List Record)
    (done : List (Place × Nat)) (it : Place × Nat)
    (hnd : itemKey it ∉ done.map itemKey) :
    collectStep cfg R it.1 it.2 (stateAfter cfg R store0 done) =
    stateAfter cfg R store0 (done ++ [it]) := by
  have hsub := newRecsFor_keys_subset cfg R (store0.map recKey) done
  by_cases hK : itemKey it ∈ store0.map recKey
  · have hK2 : resumeKey it.1.place_fips it.2 ∈ store0.map recKey := hK
    have hmem : resumeKey it.1.place_fips it.2 ∈
        (stateAfter cfg R store0 done).existing_keys := by
      simp only [stateAfter, List.mem_append]
      exact Or.inl hK
    simp only [collectStep, if_pos hmem]
    simp [stateAfter, newRecsFor_append, fetchesFor_append, skipsFor_append,
      failsFor_append, skipsFor, newRecsFor, fetchesFor, failsFor, itemKey, hK2]
  · have hK2 : resumeKey it.1.place_fips it.2 ∉ store0.map recKey := hK
    have hmem : resumeKey it.1.place_fips it.2 ∉
        (stateAfter cfg R store0 done).existing_keys := by
      simp only [stateAfter, List.mem_append]
      rintro (h | h)
      · exact hK h
      · exact hnd (hsub _ h)
    simp only [collectStep, if_neg hmem]
    cases hr : (fetchItem R it).result with
    | some d =>
      have hr2 : (getDemographicData (R it.1.place_fips it.2) it.1.place_fips it.2
          3).result = some d := hr
      have hkey : recKey (decorate cfg it.1 d) = resumeKey it.1.place_fips it.2 :=
        recKey_decorate cfg R it d hr
      simp only [hr2]
      simp [stateAfter, newRecsFor_append, fetchesFor_append, skipsFor_append,
        failsFor_append, skipsFor, newRecsFor, fetchesFor, failsFor, hr,
        storeWrites_snoc, hkey, itemKey, hK2, Nat.add_assoc]
    | none =>
      have hr2 : (getDemographicData (R it.1.place_fips it.2) it.1.place_fips it.2
          3).result = none := hr
      simp only [hr2]
      simp [stateAfter, newRecsFor_append, fetchesFor_append, skipsFor_append,
        failsFor_append, skipsFor, newRecsFor, fetchesFor, failsFor, hr,
        itemKey, hK2]

/-- Folding the loop body over a list of fresh work items extends the
closed-form state, provided all keys in play are pairwise distinct. -/
theorem collect_go (cfg : Config) (R : RunOracle) (store0 : List Record) :
    ∀ (ws done : List (Place × Nat)),
    ((done ++ ws).map itemKey).Nodup →
    ws.foldl (fun s it => collectStep cfg R it.1 it.2 s)
      (stateAfter cfg R store0 done) =
    stateAfter cfg R store0 (done ++ ws) := by
  intro ws
  induction ws with
  | nil => intro done _; simp
  | cons it rest ih =>
    intro done hnd
    have hnotin : itemKey it ∉ done.map itemKey := by
      rw [List.map_append] at hnd
      have hdisj := List.disjoint_of_nodup_append hnd
      intro hmem
      exact hdisj hmem (by simp)
    rw [List.foldl_cons, stateAfter_step cfg R store0 done it hnotin]
    have hre : done ++ it :: rest = (done ++ [it]) ++ rest := by simp
    rw [hre] at hnd
    rw [show done ++ it :: rest = (done ++ [it]) ++ rest by simp]
    exact ih (done ++ [it]) hnd

theorem foldl_years_map (cfg : Config) (R : RunOracle) (p : Place) :
    ∀ (years : List Nat) (s : LoopState),
    years.foldl (fun s y => collectStep cfg R p y s) s =
    (years.map (fun y => (p, y))).foldl (fun s it => collectStep cfg R it.1 it.2 s) s := by
  intro years
  induction years with
  | nil => intro s; rfl
  | cons y ys ih =>
    intro s
    simp only [List.foldl_cons, List.map_cons]
    exact ih _

theorem foldl_workItems (cfg : Config) (R : RunOracle) (years : List Nat) :
    ∀ (places : List Place) (s : LoopState),
    places.foldl
      (fun s place => years.foldl (fun s y => collectStep cfg R place y s) s) s =
    (workItems places years).foldl (fun s it => collectStep cfg R it.1 it.2 s) s := by
  intro places
  induction places with
  | nil => intro s; rfl
  | cons p ps ih =>
    intro s
    simp only [List.foldl_cons, workItems, List.foldl_append]
    rw [foldl_years_map, ih]

/-- Closed-form characterization of one full call of
`collect_data_for_places`, valid whenever the work-set keys are pairwise
distinct (the work-item uniqueness invariant of the specification data
model). -/
theorem runCollect_spec (cfg : Config) (R : RunOracle) (places : List Place)
    (years : List Nat) (store0 : List Record)
    (hnd : (workKeys places years).Nodup) :
    runCollect cfg R places years store0 =
      { finalData :=
          store0 ++ newRecsFor cfg R (store0.map recKey) (workItems places years)
        writes :=
          storeWrites store0 (newRecsFor cfg R (store0.map recKey) (workItems places years))
        fetched := fetchesFor (store0.map recKey) (workItems places years)
        failed := failsFor R (store0.map recKey) (workItems places years)
        skipped := skipsFor (store0.map recKey) (workItems places years)
        completed :=
          store0.length +
            (newRecsFor cfg R (store0.map recKey) (workItems places years)).length } := by
  have hinit : LoopState.mk store0 (store0.map recKey) store0.length [] [] [] [] =
      stateAfter cfg R store0 [] := by
    simp [stateAfter, newRecsFor, fetchesFor, skipsFor, failsFor, storeWrites]
  have hgo := collect_go cfg R store0 (workItems places years) []
    (by simpa [workKeys] using hnd)
  simp only [runCollect, foldl_workItems, hinit, hgo]
  simp [stateAfter]

/-! ## Derived facts about the run loop -/

theorem workItems_length : ∀ (places : List Place) (years : List Nat),
    (workItems places years).length = places.length * years.length := by
  intro places years
  induction places with
  | nil => simp [workItems]
  | cons p ps ih =>
    simp [workItems, ih, Nat.succ_mul, Nat.add_comm]

theorem workItems_mem (p : Place) (y : Nat) : ∀ (places : List Place) (years : List Nat),
    (p, y) ∈ workItems places years ↔ p ∈ places ∧ y ∈ years := by
  intro places years
  induction places with
  | nil => simp [workItems]
  | cons q ps ih =>
    simp only [workItems, List.mem_append, List.mem_map, ih, List.mem_cons]
    constructor
    · rintro (⟨y2, hy2, heq⟩ | ⟨hp, hy⟩)
      · cases heq; exact ⟨Or.inl rfl, hy2⟩
      · exact ⟨Or.inr hp, hy⟩
    · rintro ⟨hp | hp, hy⟩
      · exact Or.inl ⟨y, hy, by rw [hp]⟩
      · exact Or.inr ⟨hp, hy⟩

theorem fetchesFor_all_mem (K0 : List String) : ∀ ws : List (Place × Nat),
    (∀ it ∈ ws, itemKey it ∈ K0) → fetchesFor K0 ws = [] := by
  intro ws h
  induction ws with
  | nil => rfl
  | cons it tl ih =>
    have := h it (by simp)
    simp only [fetchesFor, if_pos this]
    exact ih fun x hx => h x (by simp [hx])

theorem skipsFor_all_mem (K0 : List String) : ∀ ws : List (Place × Nat),
    (∀ it ∈ ws, itemKey it ∈ K0) →
    skipsFor K0 ws = ws.map (fun it => (it.1.place_fips, it.2)) := by
  intro ws h
  induction ws with
  | nil => rfl
  | cons it tl ih =>
    have := h it (by simp)
    simp only [skipsFor, if_pos this, List.map_cons]
    rw [ih fun x hx => h x (by simp [hx])]

theorem newRecsFor_all_mem (cfg : Config) (R : RunOracle) (K0 : List String) :
    ∀ ws : List (Place × Nat),
    (∀ it ∈ ws, itemKey it ∈ K0) → newRecsFor cfg R K0 ws = [] := by
  intro ws h
  induction ws with
  | nil => rfl
  | cons it tl ih =>
    have := h it (by simp)
    simp only [newRecsFor, if_pos this]
    exact ih fun x hx => h x (by simp [hx])

theorem failsFor_all_mem (R : RunOracle) (K0 : List String) :
    ∀ ws : List (Place × Nat),
    (∀ it ∈ ws, itemKey it ∈ K0) → failsFor R K0 ws = [] := by
  intro ws h
  induction ws with
  | nil => rfl
  | cons it tl ih =>
    have := h it (by simp)
    simp only [failsFor, if_pos this]
    exact ih fun x hx => h x (by simp [hx])

/-- With an always-succeeding provider and an empty startup key set, the
run appends one decorated record per work item, in order. -/
theorem newRecsFor_nil_allOk (cfg : Config) (R : RunOracle)
    (rows : String → Nat → List String)
    (hok : ∀ f y a, R f y a = ApiResponse.ok (rows f y)) :
    ∀ ws : List (Place × Nat),
    newRecsFor cfg R [] ws = ws.map (fun it =>
      decorate cfg it.1 (mkResult (rows it.1.place_fips it.2) it.1.place_fips it.2)) := by
  intro ws
  have hfet : ∀ it : Place × Nat, (fetchItem R it).result =
      some (mkResult (rows it.1.place_fips it.2) it.1.place_fips it.2) := by
    intro it
    simp [fetchItem, getDemographicData, fetchLoop, hok]
  induction ws with
  | nil => rfl
  | cons it tl ih =>
    simp [newRecsFor, hfet it, ih]

theorem newRecsFor_nil_allOk_keys (cfg : Config) (R : RunOracle)
    (rows : String → Nat → List String)
    (hok : ∀ f y a, R f y a = ApiResponse.ok (rows f y)) :
    ∀ ws : List (Place × Nat),
    (newRecsFor cfg R [] ws).map recKey = ws.map itemKey := by
  intro ws
  rw [newRecsFor_nil_allOk cfg R rows hok, List.map_map]
  induction ws with
  | nil => rfl
  | cons it tl ih =>
    simp only [List.map_cons, Function.comp_apply, ih]
    congr 1
    simp [recKey, decorate_data, mkResult, itemKey]

/-- Keys of appended records avoid the startup key set. -/
theorem newRecsFor_keys_not_K0 (cfg : Config) (R : RunOracle) (K0 : List String) :
    ∀ (ws : List (Place × Nat)) (k : String),
    k ∈ (newRecsFor cfg R K0 ws).map recKey → k ∉ K0 := by
  intro ws
  induction ws with
  | nil => intro k h; simp [newRecsFor] at h
  | cons it tl ih =>
    intro k h
    by_cases hm : itemKey it ∈ K0
    · simp only [newRecsFor, if_pos hm] at h
      exact ih k h
    · simp only [newRecsFor, if_neg hm] at h
      cases hr : (fetchItem R it).result with
      | none => rw [hr] at h; exact ih k h
      | some d =>
        rw [hr] at h
        simp only [List.map_cons, List.mem_cons] at h
        rcases h with h | h
        · rw [recKey_decorate cfg R it d hr] at h
          rw [h]; exact hm
        · exact ih k h

/-- The key list of the appended records is a sublist of the work-set key
list. -/
theorem newRecsFor_keys_sublist (cfg : Config) (R : RunOracle) (K0 : List String) :
    ∀ ws : List (Place × Nat),
    List.Sublist ((newRecsFor cfg R K0 ws).map recKey) (ws.map itemKey) := by
  intro ws
  induction ws with
  | nil => simp [newRecsFor]
  | cons it tl ih =>
    by_cases hm : itemKey it ∈ K0
    · simp only [newRecsFor, if_pos hm, List.map_cons]
      exact ih.cons _
    · simp only [newRecsFor, if_neg hm]
      cases hr : (fetchItem R it).result with
      | none => simp only [List.map_cons]; exact ih.cons _
      | some d =>
        simp only [List.map_cons, recKey_decorate cfg R it d hr]
        exact ih.cons₂ _

/-- Membership in the written-stores trace: every written store is the
startup store followed by a non-empty prefix of the appended records. -/
theorem storeWrites_mem : ∀ (rs store0 : List Record) (w : List Record),
    w ∈ storeWrites store0 rs → ∃ n : Nat, w = store0 ++ rs.take (n + 1) := by
  intro rs
  induction rs with
  | nil => intro store0 w h; simp [storeWrites] at h
  | cons r tl ih =>
    intro store0 w h
    simp only [storeWrites, List.mem_cons] at h
    rcases h with h | h
    · exact ⟨0, by simpa using h⟩
    · obtain ⟨n, hn⟩ := ih (store0 ++ [r]) w h
      exact ⟨n + 1, by simpa [List.append_assoc] using hn⟩

theorem storeWrites_length : ∀ (rs store0 : List Record),
    (storeWrites store0 rs).length = rs.length := by
  intro rs
  induction rs with
  | nil => intro store0; rfl
  | cons r tl ih => intro store0; simp [storeWrites, ih]

theorem storeWrites_get : ∀ (rs store0 : List Record) (n : Nat)
    (h : n < (storeWrites store0 rs).length),
    (storeWrites store0 rs).get ⟨n, h⟩ = store0 ++ rs.take (n + 1) := by
  intro rs
  induction rs with
  | nil => intro store0 n h; simp [storeWrites] at h
  | cons r tl ih =>
    intro store0 n h
    cases n with
    | zero => simp [storeWrites]
    | succ m =>
      have h2 : m < (storeWrites (store0 ++ [r]) tl).length := by
        simpa [storeWrites] using h
      have := ih (store0 ++ [r]) m h2
      simp only [storeWrites, List.get_cons_succ]
      rw [this]
      simp [List.append_assoc]

theorem storeWrites_getD : ∀ (rs store0 : List Record) (n : Nat),
    n < rs.length →
    (storeWrites store0 rs).getD n [] = store0 ++ rs.take (n + 1) := by
  intro rs
  induction rs with
  | nil => intro store0 n h; simp at h
  | cons r tl ih =>
    intro store0 n h
    cases n with
    | zero => simp [storeWrites]
    | succ m =>
      have h2 : m < tl.length := by simpa using h
      simp only [storeWrites, List.getD_cons_succ]
      rw [ih (store0 ++ [r]) m h2]
      simp [List.append_assoc]

/-- A work item that was not skipped and whose fetch failed lands in the
failure list. -/
theorem mem_failsFor (R : RunOracle) (K0 : List String) :
    ∀ (ws : List (Place × Nat)) (it : Place × Nat), it ∈ ws → itemKey it ∉ K0 →
    (fetchItem R it).result = none → (it.1.name, it.2) ∈ failsFor R K0 ws := by
  intro ws
  induction ws with
  | nil => intro it h; simp at h
  | cons hd tl ih =>
    intro it hmem hK hr
    rcases List.mem_cons.1 hmem with heq | htl
    · subst heq
      simp only [failsFor, if_neg hK, hr]
      simp
    · by_cases hm : itemKey hd ∈ K0
      · simp only [failsFor, if_pos hm]
        exact ih it htl hK hr
      · simp only [failsFor, if_neg hm]
        cases hr2 : (fetchItem R hd).result with
        | some d => exact ih it htl hK hr
        | none => exact List.mem_cons_of_mem _ (ih it htl hK hr)

/-- Under pairwise-distinct work keys, the key of a failed work item never
appears among the appended records. -/
theorem key_not_in_newRecs_of_failed (cfg : Config) (R : RunOracle) (K0 : List String) :
    ∀ ws : List (Place × Nat), (ws.map itemKey).Nodup →
    ∀ it ∈ ws, (fetchItem R it).result = none →
    itemKey it ∉ (newRecsFor cfg R K0 ws).map recKey := by
  intro ws
  induction ws with
  | nil => intro _ it h; simp at h
  | cons hd tl ih =>
    intro hnd it hmem hr
    have hnd2 : (tl.map itemKey).Nodup := (List.nodup_cons.1 (by simpa using hnd)).2
    have hhd : itemKey hd ∉ tl.map itemKey := (List.nodup_cons.1 (by simpa using hnd)).1
    rcases List.mem_cons.1 hmem with heq | htl
    · subst heq
      intro habs
      by_cases hm : itemKey it ∈ K0
      · rw [show newRecsFor cfg R K0 (it :: tl) = newRecsFor cfg R K0 tl from
          by simp [newRecsFor, hm]] at habs
        exact hhd (newRecsFor_keys_subset cfg R K0 tl _ habs)
      · rw [show newRecsFor cfg R K0 (it :: tl) = newRecsFor cfg R K0 tl from
          by simp [newRecsFor, hm, hr]] at habs
        exact hhd (newRecsFor_keys_subset cfg R K0 tl _ habs)
    · intro habs
      have hne : itemKey it ≠ itemKey hd := by
        intro he
        exact hhd (he ▸ List.mem_map_of_mem itemKey htl)
      by_cases hm : itemKey hd ∈ K0
      · rw [show newRecsFor cfg R K0 (hd :: tl) = newRecsFor cfg R K0 tl from
          by simp [newRecsFor, hm]] at habs
        exact ih hnd2 it htl hr habs
      · cases hr2 : (fetchItem R hd).result with
        | none =>
          rw [show newRecsFor cfg R K0 (hd :: tl) = newRecsFor cfg R K0 tl from
            by simp [newRecsFor, hm, hr2]] at habs
          exact ih hnd2 it htl hr habs
        | some d =>
          rw [show newRecsFor cfg R K0 (hd :: tl) =
              decorate cfg hd.1 d :: newRecsFor cfg R K0 tl from
            by simp [newRecsFor, hm, hr2]] at habs
          simp only [List.map_cons, List.mem_cons,
            recKey_decorate cfg R hd d hr2] at habs
          rcases habs with habs | habs
          · exact hne habs
          · exact ih hnd2 it htl hr habs

/-- The fetch trace in filter form: exactly the work items whose key is
absent from the startup key set, in work order. -/
theorem fetchesFor_eq_filter (K0 : List String) : ∀ ws : List (Place × Nat),
    fetchesFor K0 ws =
      (ws.filter (fun it => decide (itemKey it ∉ K0))).map
        (fun it => (it.1.place_fips, it.2)) := by
  intro ws
  induction ws with
  | nil => rfl
  | cons it tl ih =>
    by_cases h : itemKey it ∈ K0 <;>
      simp [fetchesFor, List.filter_cons, h, ih]

/-! ## Behaviour of the retry loop on the scenarios of the specification -/

/-- Exactly k transient failures followed by a success, with k below the
retry bound: the fetch succeeds and the backoff sleeps are 2 ^ 0 up to
2 ^ (k - 1), i.e. doubling from a base of one time unit. -/
theorem fetch_transient_then_ok (resps : Nat → ApiResponse) (f : String) (y : Nat)
    (k : Nat) (row : List String) (hk : k < 3)
    (htr : ∀ a, a < k → isTransient (resps a)) (hok : resps k = ApiResponse.ok row) :
    (getDemographicData resps f y 3).result = some (mkResult row f y) ∧
    (getDemographicData resps f y 3).waits = (List.range k).map (fun a => 2 ^ a) := by
  interval_cases k
  · simp [getDemographicData, fetchLoop, hok]
  · obtain h0 | h0 | h0 := htr 0 (by omega) <;>
      simp [getDemographicData, fetchLoop, h0, hok, List.range_succ]
  · obtain h0 | h0 | h0 := htr 0 (by omega) <;>
      obtain h1 | h1 | h1 := htr 1 (by omega) <;>
        simp [getDemographicData, fetchLoop, h0, h1, hok, List.range_succ]

/-- Transient failures on every attempt: the fetch gives up after 3
requests, returns no record, and slept 1 then 2 time units. -/
theorem fetch_all_transient (resps : Nat → ApiResponse) (f : String) (y : Nat)
    (htr : ∀ a, a < 3 → isTransient (resps a)) :
    (getDemographicData resps f y 3).result = none ∧
    (getDemographicData resps f y 3).waits = [1, 2] ∧
    (getDemographicData resps f y 3).attemptsUsed = 3 := by
  obtain h0 | h0 | h0 := htr 0 (by omega) <;>
    obtain h1 | h1 | h1 := htr 1 (by omega) <;>
      obtain h2 | h2 | h2 := htr 2 (by omega) <;>
        simp [getDemographicData, fetchLoop, h0, h1, h2]

/-- The explicit no-data signal on the first attempt: a single request, no
record, and no backoff sleep at all. -/
theorem fetch_noData (resps : Nat → ApiResponse) (f : String) (y : Nat)
    (h0 : resps 0 = ApiResponse.noData) :
    (getDemographicData resps f y 3).result = none ∧
    (getDemographicData resps f y 3).waits = [] ∧
    (getDemographicData resps f y 3).attemptsUsed = 1 := by
  simp [getDemographicData, fetchLoop, h0]

/-! ## Shared keys-Nodup consequences -/

/-- Under distinct startup keys and distinct work keys, the final data of
a run has pairwise-distinct keys. -/
theorem finalKeys_nodup (cfg : Config) (R : RunOracle) (places : List Place)
    (years : List Nat) (store0 : List Record)
    (h0 : (store0.map recKey).Nodup) (hnd : (workKeys places years).Nodup) :
    ((store0 ++
      newRecsFor cfg R (store0.map recKey) (workItems places years)).map recKey).Nodup := by
  rw [List.map_append]
  refine List.Nodup.append h0 ?_ ?_
  · exact List.Nodup.sublist
      (newRecsFor_keys_sublist cfg R (store0.map recKey) (workItems places years))
      (by simpa [workKeys] using hnd)
  · intro a ha hb
    exact newRecsFor_keys_not_K0 cfg R (store0.map recKey) (workItems places years) a hb ha

/-! ## Concrete fixtures used by the witnesses -/

def cfgT : Config :=
  { countyFips := fun _ => "113"
    coordinatesLookup := fun _ => none
    distRounded := fun _ => 0 }

def placesT : List Place :=
  [{ name := "Allen city", place_fips := "1924", counties := ["Collin"] },
   { name := "Plano city", place_fips := "58016", counties := ["Collin", "Denton"] }]

def yearsT : List Nat := [2009, 2010]

def rowT : List String :=
  ["Allen city, Texas", "100", "80", "10", "5", "3", "20", "7", "6", "5", "4",
   "999", "2", "1", "0", "3", "2"]

def RokT : RunOracle := fun _ _ _ => ApiResponse.ok rowT

/-! ## Claims -/

/-- Claim C1: with non-empty entity and period lists satisfying the
work-item uniqueness invariant and a provider that succeeds on every
request, the first run from an empty store leaves exactly
number-of-places times number-of-years records; the second run with the
same inputs issues zero fetch requests, skips every work item, and leaves
the store unchanged. -/
theorem c1_idempotent_run (cfg : Config) (R : RunOracle)
    (rows : String → Nat → List String)
    (places : List Place) (years : List Nat)
    (hp : places ≠ []) (hy : years ≠ [])
    (hnd : (workKeys places years).Nodup)
    (hok : ∀ f y a, R f y a = ApiResponse.ok (rows f y)) :
    (runCollect cfg R places years []).finalData.length =
      places.length * years.length ∧
    (runCollect cfg R places years
      (runCollect cfg R places years []).finalData).fetched = [] ∧
    (runCollect cfg R places years
      (runCollect cfg R places years []).finalData).skipped.length =
      places.length * years.length ∧
    (runCollect cfg R places years
      (runCollect cfg R places years []).finalData).finalData =
      (runCollect cfg R places years []).finalData := by
  have hspec1 := runCollect_spec cfg R places years [] hnd
  have hfd1 : (runCollect cfg R places years []).finalData =
      newRecsFor cfg R [] (workItems places years) := by
    rw [hspec1]
    rfl
  have hkeys : ((runCollect cfg R places years []).finalData).map recKey =
      (workItems places years).map itemKey := by
    rw [hfd1]
    exact newRecsFor_nil_allOk_keys cfg R rows hok (workItems places years)
  have hallmem : ∀ it ∈ workItems places years,
      itemKey it ∈ ((runCollect cfg R places years []).finalData).map recKey := by
    intro it hit
    rw [hkeys]
    exact List.mem_map_of_mem itemKey hit
  have hspec2 := runCollect_spec cfg R places years
    (runCollect cfg R places years []).finalData hnd
  refine ⟨?_, ?_, ?_, ?_⟩
  · rw [hfd1, newRecsFor_nil_allOk cfg R rows hok, List.length_map, workItems_length]
  · rw [hspec2]
    exact fetchesFor_all_mem _ _ hallmem
  · rw [hspec2]
    show (skipsFor _ _).length = _
    rw [skipsFor_all_mem _ _ hallmem, List.length_map, workItems_length]
  · rw [hspec2]
    show _ ++ newRecsFor _ _ _ _ = _
    rw [newRecsFor_all_mem cfg R _ _ hallmem, List.append_nil]

/-- Witness for C1 at a concrete two-place, two-year configuration with
an always-succeeding provider. -/
theorem c1_idempotent_run_witness :
    placesT ≠ [] ∧ yearsT ≠ [] ∧ (workKeys placesT yearsT).Nodup ∧
    (runCollect cfgT RokT placesT yearsT []).finalData.length =
      placesT.length * yearsT.length ∧
    (runCollect cfgT RokT placesT yearsT
      (runCollect cfgT RokT placesT yearsT []).finalData).fetched = [] ∧
    (runCollect cfgT RokT placesT yearsT
      (runCollect cfgT RokT placesT yearsT []).finalData).skipped.length =
      placesT.length * yearsT.length := by
  have h := c1_idempotent_run cfgT RokT (fun _ _ => rowT) placesT yearsT
    (by decide) (by decide) (by decide) (fun _ _ _ => rfl)
  exact ⟨by decide, by decide, by decide, h.1, h.2.1, h.2.2.1⟩

/-- Claim C2: starting from a store with pairwise-distinct keys, both the
final store and every intermediate store written during the run have
pairwise-distinct (entity, period) keys; since an interrupted run leaves
one of the written stores on disk, any sequence of interrupted and
resumed runs preserves the invariant. -/
theorem c2_at_most_once_key (cfg : Config) (R : RunOracle) (places : List Place)
    (years : List Nat) (store0 : List Record)
    (h0 : (store0.map recKey).Nodup) (hnd : (workKeys places years).Nodup) :
    (((runCollect cfg R places years store0).finalData).map recKey).Nodup ∧
    ∀ w ∈ (runCollect cfg R places years store0).writes, (w.map recKey).Nodup := by
  have hspec := runCollect_spec cfg R places years store0 hnd
  have hfinal := finalKeys_nodup cfg R places years store0 h0 hnd
  constructor
  · rw [hspec]
    exact hfinal
  · intro w hw
    rw [hspec] at hw
    obtain ⟨n, rfl⟩ := storeWrites_mem _ store0 w hw
    have hsub : List.Sublist
        (store0 ++ (newRecsFor cfg R (store0.map recKey) (workItems places years)).take (n + 1))
        (store0 ++ newRecsFor cfg R (store0.map recKey) (workItems places years)) :=
      List.Sublist.append_left (List.take_sublist _ _) store0
    exact List.Nodup.sublist (List.Sublist.map recKey hsub) hfinal

/-- Witness for C2: a store holding one prior record, a provider that
succeeds, two places and two years. -/
theorem c2_at_most_once_key_witness :
    ((([{ data := mkResult rowT "61796" 2009, city := "Richardson city",
          county := "Dallas", county_fips := "113", all_counties := "Dallas",
          latitude := 0, longitude := 0, coordinates := "", distance_from_dallas := 0 }] :
        List Record).map recKey).Nodup ∧ (workKeys placesT yearsT).Nodup) ∧
    (((runCollect cfgT RokT placesT yearsT
        [{ data := mkResult rowT "61796" 2009, city := "Richardson city",
           county := "Dallas", county_fips := "113", all_counties := "Dallas",
           latitude := 0, longitude := 0, coordinates := "", distance_from_dallas := 0 }]).finalData).map
      recKey).Nodup := by
  refine ⟨⟨by decide, by decide⟩, ?_⟩
  exact (c2_at_most_once_key cfgT RokT placesT yearsT _ (by decide) (by decide)).1

/-- Claim C3: the n-th store content written during a run (counting from
zero) is exactly the startup records followed by the first n + 1 newly
fetched records; the number of writes equals the number of new records;
and a subsequent run started from any such written store loads exactly
that store, extends it in place, and fetches exactly the items whose keys
it does not already contain. -/
theorem c3_crash_safe_checkpoint (cfg : Config) (R : RunOracle) (places : List Place)
    (years : List Nat) (store0 : List Record)
    (hnd : (workKeys places years).Nodup) (n : Nat)
    (h : n < (runCollect cfg R places years store0).writes.length) :
    (runCollect cfg R places years store0).writes.getD n [] =
      store0 ++
        (newRecsFor cfg R (store0.map recKey) (workItems places years)).take (n + 1) ∧
    (runCollect cfg R places years store0).writes.length =
      (newRecsFor cfg R (store0.map recKey) (workItems places years)).length ∧
    (runCollect cfg R places years
      ((runCollect cfg R places years store0).writes.getD n [])).finalData =
      (runCollect cfg R places years store0).writes.getD n [] ++
        newRecsFor cfg R
          (((runCollect cfg R places years store0).writes.getD n []).map recKey)
          (workItems places years) ∧
    (runCollect cfg R places years
      ((runCollect cfg R places years store0).writes.getD n [])).fetched =
      fetchesFor
        (((runCollect cfg R places years store0).writes.getD n []).map recKey)
        (workItems places years) := by
  have hspec := runCollect_spec cfg R places years store0 hnd
  have hlen : (runCollect cfg R places years store0).writes.length =
      (newRecsFor cfg R (store0.map recKey) (workItems places years)).length := by
    rw [hspec]
    exact storeWrites_length _ store0
  have hres := runCollect_spec cfg R places years
    ((runCollect cfg R places years store0).writes.getD n []) hnd
  refine ⟨?_, hlen, by rw [hres], by rw [hres]⟩
  rw [hspec]
  show (storeWrites store0 _).getD n [] = _
  exact storeWrites_getD _ store0 n (by rw [hlen] at h; exact h)

/-- Witness for C3: first write of a concrete run from an empty store. -/
theorem c3_crash_safe_checkpoint_witness :
    (workKeys placesT yearsT).Nodup ∧
    0 < (runCollect cfgT RokT placesT yearsT []).writes.length ∧
    (runCollect cfgT RokT placesT yearsT []).writes.getD 0 [] =
      [] ++ (newRecsFor cfgT RokT (([] : List Record).map recKey)
        (workItems placesT yearsT)).take (0 + 1) := by
  have h := c3_crash_safe_checkpoint cfgT RokT placesT yearsT [] (by decide) 0 (by decide)
  exact ⟨by decide, by decide, h.1⟩

/-- Claim C4: k transient failures with k below the bound of 3 followed by
a success yield the parsed record, after backoff sleeps doubling from one
time unit; three consecutive transient failures yield no record after
sleeps of 1 and 2; at run level such an item lands in the failure list
and its key is absent from the final store. -/
theorem c4_retry_bound (resps : Nat → ApiResponse) (f : String) (y : Nat)
    (k : Nat) (row : List String) (hk : k < 3)
    (htr : ∀ a, a < k → isTransient (resps a)) (hok : resps k = ApiResponse.ok row)
    (resps2 : Nat → ApiResponse) (f2 : String) (y2 : Nat)
    (htr2 : ∀ a, a < 3 → isTransient (resps2 a))
    (cfg : Config) (R : RunOracle) (places : List Place) (years : List Nat)
    (store0 : List Record) (p : Place) (yy : Nat)
    (hp : p ∈ places) (hy : yy ∈ years) (hnd : (workKeys places years).Nodup)
    (hnew : itemKey (p, yy) ∉ store0.map recKey)
    (htr3 : ∀ a, a < 3 → isTransient (R p.place_fips yy a)) :
    (getDemographicData resps f y 3).result = some (mkResult row f y) ∧
    (getDemographicData resps f y 3).waits = (List.range k).map (fun a => 2 ^ a) ∧
    (getDemographicData resps2 f2 y2 3).result = none ∧
    (getDemographicData resps2 f2 y2 3).waits = [1, 2] ∧
    (p.name, yy) ∈ (runCollect cfg R places years store0).failed ∧
    itemKey (p, yy) ∉ ((runCollect cfg R places years store0).finalData).map recKey := by
  obtain ⟨hr1, hw1⟩ := fetch_transient_then_ok resps f y k row hk htr hok
  obtain ⟨hr2, hw2, _⟩ := fetch_all_transient resps2 f2 y2 htr2
  have hws : (p, yy) ∈ workItems places years := (workItems_mem p yy places years).2 ⟨hp, hy⟩
  have hfail : (fetchItem R (p, yy)).result = none :=
    (fetch_all_transient (R p.place_fips yy) p.place_fips yy htr3).1
  have hspec := runCollect_spec cfg R places years store0 hnd
  refine ⟨hr1, hw1, hr2, hw2, ?_, ?_⟩
  · rw [hspec]
    exact mem_failsFor R _ (workItems places years) (p, yy) hws hnew hfail
  · rw [hspec]
    show itemKey (p, yy) ∉ (store0 ++ _).map recKey
    rw [List.map_append]
    intro hmem
    rcases List.mem_append.1 hmem with hm | hm
    · exact hnew hm
    · exact key_not_in_newRecs_of_failed cfg R (store0.map recKey)
        (workItems places years) (by simpa [workKeys] using hnd) (p, yy) hws hfail hm

/-- Witness for C4: one API-error response then success, an
always-raising provider, and a run against an always-timing-out
provider. -/
theorem c4_retry_bound_witness :
    (getDemographicData
      (fun a => if a = 0 then ApiResponse.apiError else ApiResponse.ok rowT)
      "1924" 2009 3).result = some (mkResult rowT "1924" 2009) ∧
    (getDemographicData
      (fun a => if a = 0 then ApiResponse.apiError else ApiResponse.ok rowT)
      "1924" 2009 3).waits = (List.range 1).map (fun a => 2 ^ a) ∧
    (getDemographicData (fun _ => ApiResponse.exn) "1924" 2009 3).waits = [1, 2] ∧
    ("Allen city", 2009) ∈ (runCollect cfgT (fun _ _ _ => ApiResponse.timeout)
      placesT yearsT []).failed := by
  have h := c4_retry_bound
    (fun a => if a = 0 then ApiResponse.apiError else ApiResponse.ok rowT)
    "1924" 2009 1 rowT (by omega)
    (by intro a ha; interval_cases a; left; rfl) rfl
    (fun _ => ApiResponse.exn) "1924" 2009
    (by intro a ha; right; right; rfl)
    cfgT (fun _ _ _ => ApiResponse.timeout) placesT yearsT []
    { name := "Allen city", place_fips := "1924", counties := ["Collin"] } 2009
    (by decide) (by decide) (by decide) (by simp)
    (by intro a ha; right; left; rfl)
  exact ⟨h.1, h.2.1, h.2.2.2.1, h.2.2.2.2.1⟩

/-- Counterexample to claim C5 as stated: when the provider answers the
explicit no-data signal (HTTP 204) for every key, the run appends each
such key to its failed-records list — the same list that records
transient-retry exhaustion — so the key is counted as a failure in the
run report rather than being excluded from the counts. -/
theorem c5_counterexample :
    (runCollect cfgT (fun _ _ _ => ApiResponse.noData) placesT [2009] []).failed =
      [("Allen city", 2009), ("Plano city", 2009)] ∧
    (runCollect cfgT (fun _ _ _ => ApiResponse.noData) placesT [2009] []).finalData = [] := by
  decide

/-- Claim C5 amended: a no-data response produces no store entry, no
retry loop (one request, no backoff sleeps), and no success; but the key
is appended to the run failure list, indistinguishable there from a
transient-retry exhaustion. -/
theorem c5_nodata_amended (resps : Nat → ApiResponse) (f : String) (y : Nat)
    (h0 : resps 0 = ApiResponse.noData)
    (cfg : Config) (R : RunOracle) (places : List Place) (years : List Nat)
    (store0 : List Record) (p : Place) (yy : Nat)
    (hp : p ∈ places) (hy : yy ∈ years) (hnd : (workKeys places years).Nodup)
    (hnew : itemKey (p, yy) ∉ store0.map recKey)
    (hR : R p.place_fips yy 0 = ApiResponse.noData) :
    (getDemographicData resps f y 3).result = none ∧
    (getDemographicData resps f y 3).waits = [] ∧
    (getDemographicData resps f y 3).attemptsUsed = 1 ∧
    itemKey (p, yy) ∉ ((runCollect cfg R places years store0).finalData).map recKey ∧
    (p.name, yy) ∈ (runCollect cfg R places years store0).failed := by
  obtain ⟨h1, h2, h3⟩ := fetch_noData resps f y h0
  have hws : (p, yy) ∈ workItems places years := (workItems_mem p yy places years).2 ⟨hp, hy⟩
  have hfail : (fetchItem R (p, yy)).result = none :=
    (fetch_noData (R p.place_fips yy) p.place_fips yy hR).1
  have hspec := runCollect_spec cfg R places years store0 hnd
  refine ⟨h1, h2, h3, ?_, ?_⟩
  · rw [hspec]
    show itemKey (p, yy) ∉ (store0 ++ _).map recKey
    rw [List.map_append]
    intro hmem
    rcases List.mem_append.1 hmem with hm | hm
    · exact hnew hm
    · exact key_not_in_newRecs_of_failed cfg R (store0.map recKey)
        (workItems places years) (by simpa [workKeys] using hnd) (p, yy) hws hfail hm
  · rw [hspec]
    exact mem_failsFor R _ (workItems places years) (p, yy) hws hnew hfail

/-- Witness for the amended C5 at a concrete no-data provider. -/
theorem c5_nodata_amended_witness :
    (getDemographicData (fun _ => ApiResponse.noData) "1924" 2009 3).waits = [] ∧
    (getDemographicData (fun _ => ApiResponse.noData) "1924" 2009 3).attemptsUsed = 1 ∧
    ("Allen city", 2009) ∈ (runCollect cfgT (fun _ _ _ => ApiResponse.noData)
      placesT yearsT []).failed := by
  have h := c5_nodata_amended (fun _ => ApiResponse.noData) "1924" 2009 rfl
    cfgT (fun _ _ _ => ApiResponse.noData) placesT yearsT []
    { name := "Allen city", place_fips := "1924", counties := ["Collin"] } 2009
    (by decide) (by decide) (by decide) (by simp) rfl
  exact ⟨h.2.1, h.2.2.1, h.2.2.2.2⟩

/-- Claim C6: a run fetches exactly the work items whose keys are not in
the startup store (in work order), appends new records after the
untouched startup records, keeps every startup record unchanged in the
final store, and never issues a fetch for an item whose key the store
already holds. -/
theorem c6_resume_frame (cfg : Config) (R : RunOracle) (places : List Place)
    (years : List Nat) (store0 : List Record)
    (hnd : (workKeys places years).Nodup) :
    (runCollect cfg R places years store0).fetched =
      ((workItems places years).filter
        (fun it => decide (itemKey it ∉ store0.map recKey))).map
        (fun it => (it.1.place_fips, it.2)) ∧
    (runCollect cfg R places years store0).finalData =
      store0 ++ newRecsFor cfg R (store0.map recKey) (workItems places years) ∧
    (∀ r ∈ store0, r ∈ (runCollect cfg R places years store0).finalData) ∧
    ∀ it ∈ workItems places years, itemKey it ∈ store0.map recKey →
      (it.1.place_fips, it.2) ∉ (runCollect cfg R places years store0).fetched := by
  have hspec := runCollect_spec cfg R places years store0 hnd
  refine ⟨?_, by rw [hspec], ?_, ?_⟩
  · rw [hspec]
    show fetchesFor _ _ = _
    exact fetchesFor_eq_filter _ _
  · intro r hr
    rw [hspec]
    show r ∈ store0 ++ _
    exact List.mem_append_left _ hr
  · intro it hit hkey hmem
    rw [hspec] at hmem
    have hmem2 : (it.1.place_fips, it.2) ∈
        ((workItems places years).filter
          (fun it => decide (itemKey it ∉ store0.map recKey))).map
          (fun it => (it.1.place_fips, it.2)) := by
      rw [← fetchesFor_eq_filter]
      exact hmem
    obtain ⟨it2, hit2, heq⟩ := List.mem_map.1 hmem2
    have hfil := List.mem_filter.1 hit2
    have hnot : itemKey it2 ∉ store0.map recKey := of_decide_eq_true hfil.2
    apply hnot
    rw [Prod.mk.injEq] at heq
    have hk : itemKey it2 = itemKey it := by
      simp [itemKey, resumeKey, heq.1, heq.2]
    rw [hk]
    exact hkey

/-- Witness for C6: a store pre-populated with the Allen 2009 record;
the run fetches exactly the three remaining items. -/
theorem c6_resume_frame_witness :
    (workKeys placesT yearsT).Nodup ∧
    (runCollect cfgT RokT placesT yearsT
      [{ data := mkResult rowT "1924" 2009, city := "Allen city",
         county := "Collin", county_fips := "085", all_counties := "Collin",
         latitude := 0, longitude := 0, coordinates := "", distance_from_dallas := 0 }]).fetched =
      [("1924", 2010), ("58016", 2009), ("58016", 2010)] ∧
    (runCollect cfgT RokT placesT yearsT
      [{ data := mkResult rowT "1924" 2009, city := "Allen city",
         county := "Collin", county_fips := "085", all_counties := "Collin",
         latitude := 0, longitude := 0, coordinates := "", distance_from_dallas := 0 }]).finalData =
      [{ data := mkResult rowT "1924" 2009, city := "Allen city",
         county := "Collin", county_fips := "085", all_counties := "Collin",
         latitude := 0, longitude := 0, coordinates := "", distance_from_dallas := 0 }] ++
        newRecsFor cfgT RokT
          (([{ data := mkResult rowT "1924" 2009, city := "Allen city",
               county := "Collin", county_fips := "085", all_counties := "Collin",
               latitude := 0, longitude := 0, coordinates := "",
               distance_from_dallas := 0 }] : List Record).map recKey)
          (workItems placesT yearsT) := by
  have h := c6_resume_frame cfgT RokT placesT yearsT
    [{ data := mkResult rowT "1924" 2009, city := "Allen city",
       county := "Collin", county_fips := "085", all_counties := "Collin",
       latitude := 0, longitude := 0, coordinates := "", distance_from_dallas := 0 }]
    (by decide)
  refine ⟨by decide, ?_, h.2.1⟩
  rw [h.1]
  decide

/-- Claim C7: the completeness ratio reported at run end equals the number
of distinct keys in the final store divided by the work-set size, never
exceeds one, and equals one exactly when every work item has a stored
record — provided the startup store is well formed (distinct keys, all
inside the work-set) and the work-set keys are pairwise distinct. -/
theorem c7_completeness_ratio (cfg : Config) (R : RunOracle) (places : List Place)
    (years : List Nat) (store0 : List Record)
    (hp : places ≠ []) (hy : years ≠ [])
    (h0 : (store0.map recKey).Nodup)
    (h0sub : ∀ k ∈ store0.map recKey, k ∈ workKeys places years)
    (hnd : (workKeys places years).Nodup) :
    completenessOf cfg R places years store0 =
      ((((runCollect cfg R places years store0).finalData.map recKey).toFinset.card : ℚ)) /
        ((places.length * years.length : Nat) : ℚ) ∧
    completenessOf cfg R places years store0 ≤ 1 ∧
    (completenessOf cfg R places years store0 = 1 ↔
      ∀ it ∈ workItems places years,
        itemKey it ∈ (runCollect cfg R places years store0).finalData.map recKey) := by
  have hspec := runCollect_spec cfg R places years store0 hnd
  have hnodup : (((runCollect cfg R places years store0).finalData).map recKey).Nodup := by
    rw [hspec]
    exact finalKeys_nodup cfg R places years store0 h0 hnd
  have hsubW : ∀ k ∈ ((runCollect cfg R places years store0).finalData).map recKey,
      k ∈ workKeys places years := by
    rw [hspec]
    show ∀ k ∈ (store0 ++ _).map recKey, _
    rw [List.map_append]
    intro k hk
    rcases List.mem_append.1 hk with hk | hk
    · exact h0sub k hk
    · exact List.Sublist.subset
        (newRecsFor_keys_sublist cfg R (store0.map recKey) (workItems places years)) hk
  have htotlen : (workKeys places years).length = places.length * years.length := by
    simp [workKeys, workItems_length]
  have hfin_le : ((runCollect cfg R places years store0).finalData).length ≤
      places.length * years.length := by
    have hle : (((runCollect cfg R places years store0).finalData).map recKey).length ≤
        (workKeys places years).length := by
      calc (((runCollect cfg R places years store0).finalData).map recKey).length =
          (((runCollect cfg R places years store0).finalData).map recKey).toFinset.card :=
            (List.toFinset_card_of_nodup hnodup).symm
        _ ≤ (workKeys places years).toFinset.card :=
            Finset.card_le_card (fun x hx => by
              rw [List.mem_toFinset] at hx ⊢
              exact hsubW x hx)
        _ ≤ (workKeys places years).length := List.toFinset_card_le _
    rw [htotlen, List.length_map] at hle
    exact hle
  have htotpos : 0 < places.length * years.length :=
    Nat.mul_pos (List.length_pos.2 hp) (List.length_pos.2 hy)
  have htotQ : ((places.length * years.length : Nat) : ℚ) ≠ 0 :=
    Nat.cast_ne_zero.2 htotpos.ne'
  have hnatiff : ((runCollect cfg R places years store0).finalData).length =
      places.length * years.length ↔
      (∀ it ∈ workItems places years,
        itemKey it ∈ ((runCollect cfg R places years store0).finalData).map recKey) := by
    constructor
    · intro hlen it hit
      have hcard1 : (((runCollect cfg R places years store0).finalData).map
          recKey).toFinset.card = places.length * years.length := by
        rw [List.toFinset_card_of_nodup hnodup, List.length_map, hlen]
      have hcard2 : (workKeys places years).toFinset.card =
          places.length * years.length := by
        rw [List.toFinset_card_of_nodup hnd, htotlen]
      have hsubF : (((runCollect cfg R places years store0).finalData).map
          recKey).toFinset ⊆ (workKeys places years).toFinset := by
        intro x hx
        rw [List.mem_toFinset] at hx ⊢
        exact hsubW x hx
      have heqset := Finset.eq_of_subset_of_card_le hsubF (by rw [hcard1, hcard2])
      have hmem : itemKey it ∈ (workKeys places years).toFinset := by
        rw [List.mem_toFinset]
        exact List.mem_map_of_mem itemKey hit
      rw [← heqset, List.mem_toFinset] at hmem
      exact hmem
    · intro hall
      refine Nat.le_antisymm hfin_le ?_
      have hsubL : ∀ k ∈ workKeys places years,
          k ∈ ((runCollect cfg R places years store0).finalData).map recKey := by
        intro k hk
        simp only [workKeys, List.mem_map] at hk
        obtain ⟨it, hit, rfl⟩ := hk
        exact hall it hit
      have hge : (workKeys places years).length ≤
          (((runCollect cfg R places years store0).finalData).map recKey).length := by
        calc (workKeys places years).length = (workKeys places years).toFinset.card :=
            (List.toFinset_card_of_nodup hnd).symm
          _ ≤ (((runCollect cfg R places years store0).finalData).map
              recKey).toFinset.card :=
            Finset.card_le_card (fun x hx => by
              rw [List.mem_toFinset] at hx ⊢
              exact hsubL x hx)
          _ ≤ (((runCollect cfg R places years store0).finalData).map recKey).length :=
            List.toFinset_card_le _
      rw [htotlen, List.length_map] at hge
      exact hge
  refine ⟨?_, ?_, ?_⟩
  · have hcard : ((((runCollect cfg R places years store0).finalData).map
        recKey).toFinset.card) = ((runCollect cfg R places years store0).finalData).length := by
      rw [List.toFinset_card_of_nodup hnodup, List.length_map]
    unfold completenessOf
    rw [hcard]
  · unfold completenessOf
    refine (div_le_one ?_).2 ?_
    · exact_mod_cast htotpos
    · exact_mod_cast hfin_le
  · unfold completenessOf
    rw [div_eq_one_iff_eq htotQ, Nat.cast_inj]
    exact hnatiff

/-- Witness for C7 at a concrete configuration reaching completeness 1. -/
theorem c7_completeness_ratio_witness :
    placesT ≠ [] ∧ yearsT ≠ [] ∧
    completenessOf cfgT RokT placesT yearsT [] ≤ 1 := by
  have h := c7_completeness_ratio cfgT RokT placesT yearsT []
    (by decide) (by decide) (by simp) (by simp) (by decide)
  exact ⟨by decide, by decide, h.2.1⟩

/-! ## Sentinel normalization (claim C8) -/

/-- The 16 numeric cells of a response row, in the order the source reads
them: positions 1 to 10, then 12, 13, a phantom empty cell for the
hard-coded `vietnamese` value, then 14 to 16. -/
def numericCellsOf (row : List String) : List String :=
  [row.getD 1 "", row.getD 2 "", row.getD 3 "", row.getD 4 "", row.getD 5 "",
   row.getD 6 "", row.getD 7 "", row.getD 8 "", row.getD 9 "", row.getD 10 "",
   row.getD 12 "", row.getD 13 "", "", row.getD 14 "", row.getD 15 "",
   row.getD 16 ""]

/-- The 16 numeric fields of a built record, in the same order. -/
def numericFieldsOf (d : DemographicData) : List Int :=
  [d.total_population, d.white_alone, d.black_alone, d.asian_alone,
   d.two_or_more_races, d.hispanic_latino, d.german, d.irish, d.english,
   d.mexican, d.indian, d.chinese, d.vietnamese, d.french, d.italian, d.korean]

theorem normValue_of_sentinel_or_empty (s : String)
    (h : s = sentinelStr ∨ s = "") : normValue s = 0 := by
  rcases h with rfl | rfl <;> simp [normValue]

theorem normValue_ne_sentinelInt (s : String)
    (hc : s.toInt? = some sentinelInt → s = sentinelStr) :
    normValue s ≠ sentinelInt := by
  unfold normValue
  split
  next h =>
    cases ht : s.toInt? with
    | none => simpa [ht] using by decide
    | some v =>
      simp only [ht, Option.getD_some]
      intro he
      exact h.2 (hc (by rw [ht, he]))
  next h => decide

theorem getD_map_normValue : ∀ (l : List String) (i : Nat),
    (l.map normValue).getD i 0 = normValue (l.getD i "") := by
  intro l
  induction l with
  | nil => intro i; simp [normValue]
  | cons s tl ih =>
    intro i
    cases i with
    | zero => simp
    | succ j => simpa using ih j

/-- Claim C8: each numeric field of a built record is the normalization of
its source cell; a sentinel or empty cell yields 0; and when every cell
is a canonical integer rendering (the only string parsing to the sentinel
integer being the sentinel string itself), no field of the record carries
the raw sentinel value. -/
theorem c8_sentinel_normalization (row : List String) (f : String) (y : Nat) :
    numericFieldsOf (mkResult row f y) = (numericCellsOf row).map normValue ∧
    (∀ i : Nat, i < 16 →
      ((numericCellsOf row).getD i "" = sentinelStr ∨
        (numericCellsOf row).getD i "" = "") →
      (numericFieldsOf (mkResult row f y)).getD i 0 = 0) ∧
    ((∀ s ∈ numericCellsOf row, s.toInt? = some sentinelInt → s = sentinelStr) →
      ∀ v ∈ numericFieldsOf (mkResult row f y), v ≠ sentinelInt) := by
  have hmap : numericFieldsOf (mkResult row f y) = (numericCellsOf row).map normValue := by
    simp [numericFieldsOf, numericCellsOf, mkResult, normValue]
  refine ⟨hmap, ?_, ?_⟩
  · intro i _ hs
    rw [hmap, getD_map_normValue]
    exact normValue_of_sentinel_or_empty _ hs
  · intro hc v hv
    rw [hmap] at hv
    obtain ⟨s, hsmem, rfl⟩ := List.mem_map.1 hv
    exact normValue_ne_sentinelInt s (hc s hsmem)

/-- Witness for C8: a row whose population cell is the sentinel and whose
white-alone cell is empty; both normalize to 0. -/
theorem c8_sentinel_normalization_witness :
    ((numericCellsOf ["X", "-666666666", "", "3", "4", "5", "6", "7", "8", "9",
        "10", "11", "12", "13", "14", "15", "16"]).getD 0 "" = sentinelStr ∨
      (numericCellsOf ["X", "-666666666", "", "3", "4", "5", "6", "7", "8", "9",
        "10", "11", "12", "13", "14", "15", "16"]).getD 0 "" = "") ∧
    (numericFieldsOf (mkResult ["X", "-666666666", "", "3", "4", "5", "6", "7",
        "8", "9", "10", "11", "12", "13", "14", "15", "16"] "1924" 2009)).getD 0 0 = 0 ∧
    (numericFieldsOf (mkResult ["X", "-666666666", "", "3", "4", "5", "6", "7",
        "8", "9", "10", "11", "12", "13", "14", "15", "16"] "1924" 2009)).getD 1 0 = 0 := by
  have h := c8_sentinel_normalization
    ["X", "-666666666", "", "3", "4", "5", "6", "7", "8", "9", "10", "11", "12",
     "13", "14", "15", "16"] "1924" 2009
  refine ⟨Or.inl (by decide), ?_, ?_⟩
  · exact h.2.1 0 (by omega) (Or.inl (by decide))
  · exact h.2.1 1 (by omega) (Or.inr (by decide))

/-- Claim C9: the request zero-pads the FIPS code to five digits, while a
successful record stores the caller representation unchanged, so the
resume key rebuilt from a stored record always equals the key built from
the entity list entry it came from. -/
theorem c9_key_representation (resps : Nat → ApiResponse) (f : String) (y : Nat)
    (d : DemographicData)
    (hres : (getDemographicData resps f y 3).result = some d)
    (cfg : Config) (R : RunOracle) (p : Place) (yy : Nat) (d2 : DemographicData)
    (hit : (fetchItem R (p, yy)).result = some d2) :
    (getDemographicData resps f y 3).request.forParam = "place:" ++ zfill 5 f ∧
    d.place_fips = f ∧
    d.year = y ∧
    resumeKey d.place_fips d.year = resumeKey f y ∧
    recKey (decorate cfg p d2) = itemKey (p, yy) := by
  obtain ⟨h1, h2⟩ := getDemographicData_result_key resps f y 3 d hres
  exact ⟨rfl, h1, h2, by rw [h1, h2], recKey_decorate cfg R (p, yy) d2 hit⟩

/-- Witness for C9: FIPS code 1924 is padded to 01924 in the request but
stored and keyed unpadded. -/
theorem c9_key_representation_witness :
    zfill 5 "1924" = "01924" ∧
    (getDemographicData (fun _ => ApiResponse.ok rowT) "1924" 2009 3).request.forParam =
      "place:" ++ zfill 5 "1924" ∧
    (mkResult rowT "1924" 2009).place_fips = "1924" ∧
    resumeKey (mkResult rowT "1924" 2009).place_fips (mkResult rowT "1924" 2009).year =
      resumeKey "1924" 2009 := by
  have h := c9_key_representation (fun _ => ApiResponse.ok rowT) "1924" 2009
    (mkResult rowT "1924" 2009) (by rfl)
    cfgT RokT { name := "Allen city", place_fips := "1924", counties := ["Collin"] }
    2009 (mkResult rowT "1924" 2009) (by rfl)
  exact ⟨by decide, h.1, h.2.1 ▸ rfl, h.2.2.2.1⟩

end DfwCollect

namespace DfwIncremental

/-!
## The incremental collector: `IncrementalDataCollector`
(incremental_collector.py)

This variant keys work on the cleaned city name rather than the FIPS
code, performs a single request per item with no retries, and saves per
city rather than per success.  Python string replacement is modelled by
structurally recursive functions with the same semantics on the inputs
the source applies them to.
-/

/-- Whether the first list is an initial segment of the second. -/
def matchesAt : List Char → List Char → Bool
  | [], _ => true
  | _ :: _, [] => false
  | p :: ps, c :: cs => p == c && matchesAt ps cs

/-- Replace every occurrence of a non-empty pattern, scanning left to
right; the fuel argument is the input length, enough for one step per
consumed character. -/
def replaceAllAux (p r : List Char) : Nat → List Char → List Char
  | 0, l => l
  | _ + 1, [] => []
  | fuel + 1, c :: cs =>
    if matchesAt p (c :: cs) then r ++ replaceAllAux p r fuel ((c :: cs).drop p.length)
    else c :: replaceAllAux p r fuel cs

/-- The `str.replace` of every comma-space-Texas occurrence used when
loading (incremental_collector.py, line 86; applying it unconditionally
is equivalent to the guarded form in the source). -/
def stripTexasLoad (s : String) : String :=
  String.mk (replaceAllAux ", Texas".data [] s.data.length s.data)

/-- The regex replacement of a trailing comma-space-Texas used when
saving (line 258). -/
def stripTexasEnd (s : String) : String :=
  if 7 ≤ s.data.length ∧ matchesAt ", Texas".data (s.data.drop (s.data.length - 7)) then
    String.mk (s.data.take (s.data.length - 7))
  else s

/-- The Census variable dictionary of the incremental collector
(lines 35–52). -/
def incVariables : List (String × String) :=
  [("B01003_001E", "total_population"), ("B02001_002E", "white_alone"),
   ("B02001_003E", "black_alone"), ("B02001_005E", "asian_alone"),
   ("B02001_008E", "two_or_more_races"), ("B03003_003E", "hispanic_latino"),
   ("B04006_039E", "german"), ("B04006_052E", "irish"),
   ("B04006_023E", "english"), ("B04006_067E", "mexican"),
   ("B04006_049E", "indian"), ("B04006_017E", "chinese"),
   ("B04006_102E", "vietnamese"), ("B04006_025E", "french"),
   ("B04006_054E", "italian"), ("B04006_061E", "korean")]

/-- Value normalization of the incremental fetch (line 243): keep the raw
cell unless it is the sentinel string of minus 999999999, None, or empty;
`none` here stands for the literal 0 the source substitutes. -/
def normIncValue : Option String → Option String
  | some s => if s ≠ "-999999999" ∧ s ≠ "" then some s else none
  | none => none

/-- One response of the provider as seen by the incremental fetch: a JSON
body with a data row, a body without one, or any raised exception (error
status via raise_for_status, network failure, malformed body). -/
inductive IncApiResponse where
  | ok (row : List String)
  | okEmpty
  | err
  deriving Repr, DecidableEq

/-- The result dictionary of the single-shot fetch (lines 236–246). -/
structure IncFetched where
  name : String
  year : Nat
  values : List (String × Option String)
  deriving Repr, DecidableEq

/-- `IncrementalDataCollector.get_demographic_data` (lines 215–250): no
retry; any exception yields None; a row is mapped through the variable
dictionary with 1-based cell positions, missing cells becoming None. -/
def getDemographicDataInc (resp : IncApiResponse) (year : Nat) : Option IncFetched :=
  match resp with
  | .ok row =>
    some { name := row.getD 0 ""
           year := year
           values := (List.range incVariables.length).map (fun j =>
             ((incVariables.getD j ("", "")).2,
              normIncValue (if j + 1 < row.length then some (row.getD (j + 1) "") else none))) }
  | .okEmpty => none
  | .err => none

/-- One entry of the target city list (lines 125–199), already filtered
by radius with its distance attached; the distance comes from a
floating-point haversine computation out of scope here. -/
structure City where
  name : String
  place_fips : String
  population : Nat
  coords : ℚ × ℚ
  distance_from_dallas : ℚ
  deriving Repr, DecidableEq

/-- One row of the incremental CSV: the fetched fields plus the metadata
added in the collection loop (lines 305–309), with the city column that
only the save step may fill (line 258). -/
structure IncRecord where
  name : String
  year : Nat
  values : List (String × Option String)
  place_fips : String
  coordinates : ℚ × ℚ
  distance_from_dallas : ℚ
  reference_population : Nat
  city : Option String
  deriving Repr, DecidableEq

def mkIncRecord (c : City) (d : IncFetched) : IncRecord :=
  { name := d.name
    year := d.year
    values := d.values
    place_fips := c.place_fips
    coordinates := c.coords
    distance_from_dallas := c.distance_from_dallas
    reference_population := c.population
    city := none }

/-- The content `save_incremental_data` (lines 252–260) writes: when no
record carries a city value (the DataFrame has no city column), every
row gets one derived from its name; otherwise the data is written as is.
The save is guarded on a non-empty list. -/
def saveView (all_data : List IncRecord) : List IncRecord :=
  if all_data.any (fun r => r.city.isSome) then all_data
  else all_data.map (fun r => { r with city := some (stripTexasEnd r.name) })

/-- State of the incremental loop: accumulated records, the (city, year)
combination set in insertion order, and the trace of store contents
written. -/
structure IncState where
  all_data : List IncRecord
  combos : List (String × Nat)
  writes : List (List IncRecord)
  deriving Repr, DecidableEq

/-- The provider oracle of a run: place FIPS and year to response. -/
abbrev IncOracle := String → Nat → IncApiResponse

/-- The inner per-year body of the city loop (lines 300–319): fetch the
missing year and, on success, append the record, register the
combination, and bump the per-city counter. -/
def incYearStep (R : IncOracle) (c : City) (clean : String)
    (acc : IncState × Nat) (y : Nat) : IncState × Nat :=
  match getDemographicDataInc (R c.place_fips y) y with
  | some d =>
    ({ acc.1 with
        all_data := acc.1.all_data ++ [mkIncRecord c d]
        combos := acc.1.combos ++ [(clean, y)] }, acc.2 + 1)
  | none => acc

/-- One iteration of the city loop of `collect_data_incrementally`
(lines 280–324): skip a complete city, collect its missing years, and
save once at the end of the city when at least one record was added. -/
def processCity (R : IncOracle) (years : List Nat) (c : City) (s : IncState) : IncState :=
  let clean := stripTexasLoad c.name
  let cityYears : List Nat :=
    s.combos.filterMap (fun q => if q.1 = clean then some q.2 else none)
  let missing := years.filter (fun y => decide (y ∉ cityYears))
  if missing = [] then s
  else
    let res := missing.foldl (incYearStep R c clean) (s, 0)
    if res.2 > 0 then
      { res.1 with writes := res.1.writes ++ [saveView res.1.all_data] }
    else res.1

/-- The (city, year) combination a loaded record registers (lines 83–88):
the city column when the file has one (a record without a value reads as
the string rendering of NaN), otherwise the name column, cleaned of the
state suffix. -/
def loadCombo (useCity : Bool) (r : IncRecord) : String × Nat :=
  (stripTexasLoad (if useCity then r.city.getD "nan" else r.name), r.year)

/-- `collect_data_incrementally` (lines 262–358): load the existing file,
build the combination set, loop over the cities, then perform one final
save whenever the accumulated data is non-empty. -/
def collectDataIncrementally (R : IncOracle) (cities : List City)
    (startYear endYear : Nat) (store0 : List IncRecord) : IncState :=
  let useCity := store0.any (fun q => q.city.isSome)
  let combos0 := store0.map (loadCombo useCity)
  let years := ((List.range (endYear + 1 - startYear)).map
    (fun i => startYear + i)).filter (fun y => decide (2009 ≤ y))
  let s0 : IncState := { all_data := store0, combos := combos0, writes := [] }
  let s := cities.foldl (fun s c => processCity R years c s) s0
  if s.all_data = [] then s
  else { s with writes := s.writes ++ [saveView s.all_data] }

/-! ### Facts about the incremental loop -/

theorem incYearStep_writes (R : IncOracle) (c : City) (clean : String)
    (acc : IncState × Nat) (y : Nat) :
    (incYearStep R c clean acc y).1.writes = acc.1.writes := by
  cases hr : getDemographicDataInc (R c.place_fips y) y <;> simp [incYearStep, hr]

theorem incYearStep_len (R : IncOracle) (c : City) (clean : String)
    (acc : IncState × Nat) (y : Nat) :
    (incYearStep R c clean acc y).1.all_data.length + acc.2 =
      acc.1.all_data.length + (incYearStep R c clean acc y).2 := by
  cases hr : getDemographicDataInc (R c.place_fips y) y with
  | none => simp [incYearStep, hr]
  | some d =>
    simp [incYearStep, hr]
    omega

theorem incFoldl_writes (R : IncOracle) (c : City) (clean : String) :
    ∀ (missing : List Nat) (acc : IncState × Nat),
    ((missing.foldl (incYearStep R c clean) acc).1).writes = acc.1.writes := by
  intro missing
  induction missing with
  | nil => intro acc; rfl
  | cons y tl ih =>
    intro acc
    rw [List.foldl_cons, ih, incYearStep_writes]

theorem incFoldl_len (R : IncOracle) (c : City) (clean : String) :
    ∀ (missing : List Nat) (acc : IncState × Nat),
    ((missing.foldl (incYearStep R c clean) acc).1.all_data).length + acc.2 =
      acc.1.all_data.length + (missing.foldl (incYearStep R c clean) acc).2 := by
  intro missing
  induction missing with
  | nil => intro acc; rfl
  | cons y tl ih =>
    intro acc
    have h1 := incYearStep_len R c clean acc y
    have h2 := ih (incYearStep R c clean acc y)
    rw [List.foldl_cons]
    omega

theorem saveView_length (l : List IncRecord) : (saveView l).length = l.length := by
  unfold saveView
  split <;> simp

theorem saveView_ne_nil (l : List IncRecord) (h : l ≠ []) : saveView l ≠ [] := by
  intro habs
  apply h
  have hl := saveView_length l
  rw [habs] at hl
  exact List.length_eq_zero.1 hl.symm

/-- With a provider whose every answer parses to None, a city iteration
changes nothing: nothing is appended and nothing is written. -/
theorem processCity_fail (R : IncOracle) (years : List Nat) (c : City) (s : IncState)
    (hfail : ∀ f y, getDemographicDataInc (R f y) y = none) :
    processCity R years c s = s := by
  have hfold : ∀ (missing : List Nat) (acc : IncState × Nat),
      missing.foldl (incYearStep R c (stripTexasLoad c.name)) acc = acc := by
    intro missing
    induction missing with
    | nil => intro acc; rfl
    | cons y tl ih =>
      intro acc
      rw [List.foldl_cons]
      rw [show incYearStep R c (stripTexasLoad c.name) acc y = acc from
        by simp [incYearStep, hfail c.place_fips y]]
      exact ih acc
  simp only [processCity, hfold]
  split <;> simp

/-- Every store content a city iteration writes is non-empty, given the
same held before. -/
theorem processCity_writes_ne_nil (R : IncOracle) (years : List Nat) (c : City)
    (s : IncState) (hprev : ∀ w ∈ s.writes, w ≠ []) :
    ∀ w ∈ (processCity R years c s).writes, w ≠ [] := by
  simp only [processCity]
  split
  · exact hprev
  split
  next hpos =>
    intro w hw
    rw [incFoldl_writes] at hw
    simp only [List.mem_append, List.mem_singleton] at hw
    rcases hw with hw | hw
    · exact hprev w hw
    · subst hw
      apply saveView_ne_nil
      intro hnil
      have hlen := incFoldl_len R c (stripTexasLoad c.name)
        (years.filter (fun y => decide (y ∉ s.combos.filterMap
          (fun q => if q.1 = stripTexasLoad c.name then some q.2 else none)))) (s, 0)
      rw [hnil] at hlen
      simp only [List.length_nil, Nat.zero_add, Nat.add_zero] at hlen
      omega
  next =>
    intro w hw
    rw [incFoldl_writes] at hw
    exact hprev w hw

theorem foldl_processCity_writes_ne_nil (R : IncOracle) (years : List Nat) :
    ∀ (cities : List City) (s : IncState), (∀ w ∈ s.writes, w ≠ []) →
    ∀ w ∈ (cities.foldl (fun s c => processCity R years c s) s).writes, w ≠ [] := by
  intro cities
  induction cities with
  | nil => intro s h; exact h
  | cons c tl ih =>
    intro s h
    rw [List.foldl_cons]
    exact ih (processCity R years c s) (processCity_writes_ne_nil R years c s h)

/-! ### Concrete fixtures for claim C10 -/

def cityT : City :=
  { name := "Plano city, Texas"
    place_fips := "58016"
    population := 285000
    coords := (0, 0)
    distance_from_dallas := 0 }

def recT : IncRecord :=
  { name := "Dallas city, Texas"
    year := 2009
    values := []
    place_fips := "19000"
    coordinates := (0, 0)
    distance_from_dallas := 0
    reference_population := 1300000
    city := some "Dallas city" }

def RerrT : IncOracle := fun _ _ => IncApiResponse.err

/-- Counterexample to claim C10 as stated: a run of the incremental
collector in which every fetch fails (so no new record is added) still
rewrites the durable store once, because the final save after the city
loop is guarded only on the accumulated dataset being non-empty, not on
anything having been added: starting from a one-record store, the run
adds nothing yet writes the unchanged store back to disk. -/
theorem c10_counterexample :
    (collectDataIncrementally RerrT [cityT] 2009 2009 [recT]).all_data = [recT] ∧
    (collectDataIncrementally RerrT [cityT] 2009 2009 [recT]).writes = [[recT]] := by
  decide

/-- Claim C10 amended: in a run with no successful fetch, no per-city
save happens; the final save still rewrites the file once with the
unchanged dataset whenever the pre-existing store is non-empty, and no
write happens at all when it is empty — and in every run whatsoever,
every content written to the store is non-empty, so an existing store is
never truncated or replaced with an empty file. -/
theorem c10_no_empty_overwrite (R : IncOracle) (cities : List City)
    (startYear endYear : Nat) (store0 : List IncRecord)
    (hfail : ∀ f y, getDemographicDataInc (R f y) y = none)
    (R2 : IncOracle) (cities2 : List City) (sy2 ey2 : Nat)
    (store2 : List IncRecord) :
    (collectDataIncrementally R cities startYear endYear store0).all_data = store0 ∧
    (collectDataIncrementally R cities startYear endYear store0).writes =
      (if store0 = [] then [] else [saveView store0]) ∧
    (∀ w ∈ (collectDataIncrementally R2 cities2 sy2 ey2 store2).writes, w ≠ []) := by
  have hloop : ∀ (cs : List City) (yrs : List Nat) (st : IncState),
      cs.foldl (fun s c => processCity R yrs c s) st = st := by
    intro cs
    induction cs with
    | nil => intro yrs st; rfl
    | cons c tl ih =>
      intro yrs st
      rw [List.foldl_cons, processCity_fail R yrs c st hfail]
      exact ih yrs st
  refine ⟨?_, ?_, ?_⟩
  · simp only [collectDataIncrementally, hloop]
    by_cases h : store0 = [] <;> simp [h]
  · simp only [collectDataIncrementally, hloop]
    by_cases h : store0 = [] <;> simp [h]
  · simp only [collectDataIncrementally]
    split
    next =>
      exact foldl_processCity_writes_ne_nil R2 _ cities2 _
        (by intro w hw; simp at hw)
    next hne =>
      intro w hw
      simp only [List.mem_append, List.mem_singleton] at hw
      rcases hw with hw | hw
      · exact foldl_processCity_writes_ne_nil R2 _ cities2 _
          (by intro w2 hw2; simp at hw2) w hw
      · subst hw
        exact saveView_ne_nil _ hne

/-- Witness for the amended C10 at the concrete fixture. -/
theorem c10_no_empty_overwrite_witness :
    (∀ f y, getDemographicDataInc (RerrT f y) y = none) ∧
    (collectDataIncrementally RerrT [cityT] 2009 2009 [recT]).all_data = [recT] ∧
    (collectDataIncrementally RerrT [cityT] 2009 2009 [recT]).writes =
      (if ([recT] : List IncRecord) = [] then [] else [saveView [recT]]) := by
  have h := c10_no_empty_overwrite RerrT [cityT] 2009 2009 [recT]
    (fun f y => rfl) RerrT [cityT] 2009 2009 [recT]
  exact ⟨fun f y => rfl, h.1, h.2.1⟩

end DfwIncremental
